import Mathlib

/-!
Verification of the structured-completion and summarization core of the
podcast2podcast repository (src/podcast2podcast/dialog.py and
src/podcast2podcast/summarize.py).

Python strings are modelled as `List Char`; fallible Python code is modelled
with `Option`/`Except` (raising an exception corresponds to the error case).
All characters occurring in the concrete inputs are ASCII, so Python's
`str.lower`/`str.title` are modelled with the ASCII `Char.toLower`/`Char.toUpper`.
-/

namespace P2P

/-- Lowercase every character (model of Python `str.lower` for ASCII data,
and of `re.IGNORECASE` matching of an ASCII lowercase pattern). -/
def lowerL (s : List Char) : List Char := s.map Char.toLower

/-- Model of Python `sep.join(xs)`. -/
def pyJoin (sep : List Char) : List (List Char) → List Char
  | [] => []
  | [x] => x
  | x :: y :: xs => x ++ sep ++ pyJoin sep (y :: xs)

/-- Model of Python `s.strip()` restricted to ASCII whitespace. -/
def pyStrip (s : List Char) : List Char :=
  ((s.dropWhile Char.isWhitespace).reverse.dropWhile Char.isWhitespace).reverse

/-- The single space separator used by `" ".join`. -/
def spC : List Char := [' ']

/-- Reference chunking: split a list into consecutive blocks of `p` elements
(the last block may be shorter).  Shown below to agree with the
`range`/slice comprehension in `summarize_pipeline`. -/
def chunksOf (p : Nat) : List α → List (List α)
  | [] => []
  | x :: xs => (x :: xs).take p :: chunksOf p (xs.drop (p - 1))
  termination_by l => l.length
  decreasing_by simp [List.length_drop]; omega

/-- Model of Python `range(0, n, step)` for an `int` step: a step of zero
raises `ValueError`, a negative step yields no indices (since the start `0`
is not above the stop `n ≥ 0`), and a positive step yields
`0, step, 2*step, ...` below `n`. -/
def pyRange0 (n : Nat) (step : Int) : Except (List Char) (List Nat) :=
  if step = 0 then Except.error ("range() arg 3 must not be zero".data)
  else if step < 0 then Except.ok []
  else Except.ok (List.range' 0 ((n + step.toNat - 1) / step.toNat) step.toNat)

/-- Model of the segmentation step of `summarize_pipeline`
(src/podcast2podcast/summarize.py line 49):
`snippets = [" ".join(sents[i : i + page]) for i in range(0, len(sents), page)]`.
The slice `sents[i : i + page]` for an index `i` produced by the range
(hence `page > 0`) is `(sents.drop i).take page`. -/
def segmentE (sents : List (List Char)) (page : Int) :
    Except (List Char) (List (List Char)) :=
  (pyRange0 sents.length page).map
    (fun idxs => idxs.map (fun i => pyJoin spC ((sents.drop i).take page.toNat)))

/-- Model of `extract_from_curly_brackets` (dialog.py lines 173-190):
`re.findall(r"({.*})", s, re.DOTALL)` finds at most one match, namely the
greedy span from the first `\x7b` to the last `\x7d` (when the first `\x7b`
is strictly before the last `\x7d`); with zero matches the unpacking
raises `ValueError`.  Two or more matches are impossible: the single greedy
match already consumes every later closing brace. -/
def extract_from_curly_brackets (s : List Char) : Option (List Char) :=
  match s.findIdx? (· == '{'), s.reverse.findIdx? (· == '}') with
  | some i, some r =>
      let j := s.length - 1 - r
      if i < j then some ((s.drop i).take (j - i + 1)) else none
  | _, _ => none

/-- Model of the forced-JSON opening fragment built by `json_complete`
(dialog.py lines 214-216): `json_start = f'\x7b"\x7bkey\x7d": "'` followed, when
`output_prefix` is truthy (non-empty), by `" " + output_prefix`. -/
def jsonStart (key : List Char) (opfx : List Char) : List Char :=
  let start := "\x7b\"".data ++ key ++ "\": \"".data
  if opfx = [] then start else start ++ " ".data ++ opfx

/-- Lowercased closing tagline with apostrophe, the first alternative of the
pattern `that'?s all for today` in
`attempt_to_salvage_dialog_that_is_slightly_too_long` (dialog.py line 128). -/
def tag1 : List Char := "that\x27s all for today".data

/-- Lowercased closing tagline without apostrophe, the second alternative of
the pattern `that'?s all for today`. -/
def tag0 : List Char := "thats all for today".data

/-- The replacement text of the salvage rewrite (dialog.py line 132):
the canonical closing sentence followed by a closing double quote and brace. -/
def canonicalClose : List Char :=
  "That\x27s all for today. Join us next time for another exciting summary.\"\x7d".data

/-- Case-insensitive match of the tagline alternation `that'?s all for today`
at the start of `t`, returning the number of characters consumed.  The two
alternatives differ at index 4, so at most one can match. -/
def tagAt (t : List Char) : Option Nat :=
  if lowerL (t.take 20) = tag1 then some 20
  else if lowerL (t.take 19) = tag0 then some 19
  else none

/-- Whether `.*$` (no DOTALL, no MULTILINE) can match the remainder `rest`:
`.` cannot cross a newline and `$` matches only at the end of the string or
just before a final trailing newline, so `rest` must contain no newline
except possibly as its very last character. -/
def tailOkB : List Char → Bool
  | [] => true
  | c :: cs => if c = '\n' then cs.isEmpty else tailOkB cs

/-- The part of a feasible remainder that the greedy match does not consume:
a final trailing newline survives the `re.sub` replacement. -/
def trailNl (rest : List Char) : List Char :=
  if rest.getLast? = some '\n' then ['\n'] else []

/-- Scan for the leftmost start position where the full pattern
`that'?s all for today.*$` (IGNORECASE) matches, and rewrite from there:
the regex engine tries each start position from the left and requires the
whole pattern, tagline and `.*$`, to match there. -/
def salvageGo : List Char → Option (List Char)
  | [] => none
  | c :: cs =>
    match tagAt (c :: cs) with
    | some L =>
        if tailOkB ((c :: cs).drop L) then
          some (canonicalClose ++ trailNl ((c :: cs).drop L))
        else (salvageGo cs).map (c :: ·)
    | none => (salvageGo cs).map (c :: ·)

/-- Model of `attempt_to_salvage_dialog_that_is_slightly_too_long`
(dialog.py lines 127-137): if `re.findall(r"(that'?s all for today.*$)",
dialog, re.IGNORECASE)` is non-empty, return `re.sub` of that pattern with
the canonical closing sentence plus `"\x7d`; otherwise raise `ValueError`
(modelled as `none`).  The single possible match is replaced; a final
trailing newline lies outside the match and is kept. -/
def attempt_to_salvage_dialog_that_is_slightly_too_long
    (dialog : List Char) : Option (List Char) :=
  salvageGo dialog

/-- Case-insensitive "starts with the (lowercase ASCII) pattern `pat`". -/
def startsWithCI (pat t : List Char) : Bool := lowerL (t.take pat.length) == pat

/-- Case-insensitive substring occurrence of `pat` in a string. -/
def occursCI (pat : List Char) : List Char → Bool
  | [] => pat.isEmpty
  | c :: cs => startsWithCI pat (c :: cs) || occursCI pat cs

/-- A candidate contains a case-insensitive occurrence of the tagline
pattern `that'?s all for today` (either alternative). -/
def containsTagPat (s : List Char) : Bool := occursCI tag1 s || occursCI tag0 s

/-- Number of top-level balanced `\x7b...\x7d` spans in a string (depth-counting
scan); written from the claim language about "top-level spans", used only to
state which inputs the claims speak about. -/
def topSpanGo : Nat → Nat → List Char → Nat
  | _, cnt, [] => cnt
  | depth, cnt, c :: cs =>
    if c = '{' then topSpanGo (depth + 1) cnt cs
    else if c = '}' then
      (if depth = 1 then topSpanGo 0 (cnt + 1) cs
       else topSpanGo (depth - 1) cnt cs)
    else topSpanGo depth cnt cs

/-- Count of top-level `\x7b...\x7d` spans (spec-side notion). -/
def topSpanCount (s : List Char) : Nat := topSpanGo 0 0 s

/-- Model of Python `c.title()`-casing for ASCII data: an alphabetic
character is uppercased when the previous character is not alphabetic and
lowercased otherwise; other characters are kept and reset the word state. -/
def pyTitleGo (prevAlpha : Bool) : List Char → List Char
  | [] => []
  | c :: cs =>
      (if c.isAlpha then (if prevAlpha then c.toLower else c.toUpper) else c)
        :: pyTitleGo c.isAlpha cs

/-- Model of Python `s.title()` for ASCII strings. -/
def pyTitle (s : List Char) : List Char := pyTitleGo false s

/-- Model of the article test in `generate_dialog` (dialog.py lines 112-114):
`podcast_title.lower().startswith("the") or podcast_title.lower().startswith("a")`. -/
def articleCheck (t : List Char) : Bool :=
  ("the".data.isPrefixOf (lowerL t)) || ("a".data.isPrefixOf (lowerL t))

/-- Model of the title rewrite in `generate_dialog` (dialog.py lines 112-115):
prepend `"the "` unless the lowercased title starts with `"the"` or `"a"`. -/
def normalizeTitle (t : List Char) : List Char :=
  if articleCheck t then t else "the ".data ++ t

/-- The prompt-facing podcast title used by `generate_dialog`
(dialog.py line 117): the normalized title passed through `.title()`. -/
def promptTitle (t : List Char) : List Char := pyTitle (normalizeTitle t)

/-- Scan state machine for `re.sub(r"\n*", " ", s)` under Python >= 3.7
semantics: at every scan position the pattern matches (a maximal, possibly
empty, run of newlines) and is replaced by one space; after a non-empty
match the following empty match is also replaced; then one non-newline
character is copied.  `inRun` records that the scanner is inside a newline
run whose single replacement space was already emitted. -/
def subNlGo : Bool → List Char → List Char
  | _, [] => [' ']
  | inRun, c :: cs =>
    if c = '\n' then (if inRun then subNlGo true cs else ' ' :: subNlGo true cs)
    else ' ' :: c :: subNlGo false cs

/-- Model of the description cleaning in `generate_summary`
(dialog.py line 91): `re.sub(r"\n*", " ", description)`. -/
def cleanDescription (s : List Char) : List Char := subNlGo false s

/-- Model of `completion.replace("\n", r"\n")` (dialog.py line 232): every
literal newline becomes the two-character escape backslash-n. -/
def pyReplaceNl (s : List Char) : List Char :=
  s.flatMap (fun c => if c = '\n' then ['\\', 'n'] else [c])

/-- JSON whitespace skipping as done by Python `json.loads`. -/
def skipWs (s : List Char) : List Char :=
  s.dropWhile (fun c => c == ' ' || c == '\t' || c == '\n' || c == '\r')

/-- Decode a JSON string escape character (after a backslash).  `\u` escapes
are not produced by the inputs under consideration and are out of model. -/
def decodeEsc (e : Char) : Option Char :=
  if e = 'n' then some '\n'
  else if e = 't' then some '\t'
  else if e = 'r' then some '\r'
  else if e = 'b' then some (Char.ofNat 8)
  else if e = 'f' then some (Char.ofNat 12)
  else if e = '"' then some '"'
  else if e = '\\' then some '\\'
  else if e = '/' then some '/'
  else none

/-- Parse the body of a JSON string (after the opening quote) as
`json.loads` does in strict mode: a raw control character (codepoint below
32, in particular a literal newline) is a parse error; escapes are decoded.
Returns the decoded content and the remainder after the closing quote. -/
def parseJStr : List Char → Option (List Char × List Char)
  | [] => none
  | c :: cs =>
    if c = '"' then some ([], cs)
    else if c = '\\' then
      match cs with
      | [] => none
      | e :: cs' =>
        match decodeEsc e with
        | some d => (parseJStr cs').map (fun p => (d :: p.1, p.2))
        | none => none
    else if c.toNat < 32 then none
    else (parseJStr cs).map (fun p => (c :: p.1, p.2))

/-- Model of `json.loads` restricted to its behaviour on documents of the
envelope shape `\x7b"<key>": "<value>"\x7d` (one object with one string member,
with optional JSON whitespace): exactly the shape `json_complete` feeds it.
Any other document of that general shape fails. -/
def parseEnvObj (s : List Char) : Option (List Char × List Char) :=
  match skipWs s with
  | '{' :: r1 =>
    match skipWs r1 with
    | '"' :: r2 =>
      match parseJStr r2 with
      | some (k, r3) =>
        match skipWs r3 with
        | ':' :: r4 =>
          match skipWs r4 with
          | '"' :: r5 =>
            match parseJStr r5 with
            | some (v, r6) =>
              match skipWs r6 with
              | '}' :: r7 => if skipWs r7 = [] then some (k, v) else none
              | _ => none
            | none => none
          | _ => none
        | _ => none
      | _ => none
    | _ => none
  | _ => none

/-- Model of the extract-normalize-parse-lookup tail of `json_complete`
(dialog.py lines 223-235) with `attempt_fix = None`: extract the curly
span, replace literal newlines by escaped newlines, `json.loads` the
result, and take the entry for `key` (mismatching key modelled as `none`). -/
def json_complete_parse (candidate key : List Char) : Option (List Char) :=
  (extract_from_curly_brackets candidate).bind fun span =>
    (parseEnvObj (pyReplaceNl span)).bind fun kv =>
      if kv.1 = key then some kv.2 else none

/-- A well-formed envelope string `\x7b"<key>": "<value>"\x7d` as produced for a
key and a value. -/
def envelope (key v : List Char) : List Char :=
  '{' :: '"' :: (key ++ ('"' :: ':' :: ' ' :: '"' :: (v ++ ['"', '}'])))

/-- A Python exception value (its type name and message), as caught by the
catch-all `except Exception` in `text_complete`. -/
structure PyExc where
  ty : List Char
  msg : List Char

/-- Result of the dialog module's `text_complete`: a completed string, or a
raised `CompletionError`. -/
inductive TCResult where
  | ok : List Char → TCResult
  | completionError : List Char → TCResult
deriving DecidableEq

/-- Model of `text_complete` in dialog.py (lines 140-170): the backend call
`openai.Completion.create(...).choices[0]["text"]` either yields a text or
raises some exception; the whole body is wrapped in
`try ... except Exception as e: raise CompletionError(...)`, so every raised
exception is converted to a `CompletionError`; on success the stripped text
is returned with the output prefix prepended. -/
def text_complete (backend : Except PyExc (List Char)) (opfx : List Char) :
    TCResult :=
  match backend with
  | Except.ok t => TCResult.ok (opfx ++ pyStrip t)
  | Except.error e =>
      TCResult.completionError ("Error completing text: ".data ++ e.msg)

/-- Claim-side predicate (wording of C6): the title begins with "a" or
"the", case-insensitively. -/
def beginsWithArticle (t : List Char) : Bool :=
  ("a".data.isPrefixOf (lowerL t)) || ("the".data.isPrefixOf (lowerL t))

/-- A character that needs no escaping inside a JSON string: not a quote,
not a backslash, not a control character. -/
def plainChar (c : Char) : Bool :=
  c != '"' && c != '\\' && decide (32 ≤ c.toNat)

/-- A key made only of plain characters (the shape of the keys "summary"
and "dialog" used by the pipeline). -/
def safeKey (k : List Char) : Bool := k.all plainChar

/-- A value made of plain characters and literal newlines: the well-formed
envelope values claim C2 speaks about. -/
def safeVal (v : List Char) : Bool := v.all (fun c => plainChar c || c == '\n')

/-- The article test of `generate_dialog` agrees with the claim-side
predicate. -/
theorem articleCheck_eq (t : List Char) : articleCheck t = beginsWithArticle t := by
  simp [articleCheck, beginsWithArticle, Bool.or_comm]

/-- Claim C6: a podcast title that does not begin with "a" or "the"
(case-insensitive) gets "the " prepended before title-casing, a title that
does is only title-cased; "Planet Money" becomes "The Planet Money" and
"The Daily" stays "The Daily". -/
theorem c6_title_normalization :
    (∀ t : List Char, beginsWithArticle t = false →
        promptTitle t = pyTitle ("the ".data ++ t)) ∧
    (∀ t : List Char, beginsWithArticle t = true → promptTitle t = pyTitle t) ∧
    promptTitle "Planet Money".data = "The Planet Money".data ∧
    promptTitle "The Daily".data = "The Daily".data := by
  refine ⟨?_, ?_, by decide, by decide⟩
  · intro t h
    simp [promptTitle, normalizeTitle, articleCheck_eq, h]
  · intro t h
    simp [promptTitle, normalizeTitle, articleCheck_eq, h]

/-- Witness for C6 at the two example titles. -/
theorem c6_title_normalization_witness :
    (beginsWithArticle "Planet Money".data = false ∧
      promptTitle "Planet Money".data = pyTitle ("the ".data ++ "Planet Money".data)) ∧
    (beginsWithArticle "The Daily".data = true ∧
      promptTitle "The Daily".data = pyTitle "The Daily".data) :=
  ⟨⟨by decide, c6_title_normalization.1 _ (by decide)⟩,
   ⟨by decide, c6_title_normalization.2.1 _ (by decide)⟩⟩

/-- Counterexample to claim C7: with key "dialog" and output prefix "Hi"
the fragment is not the open-quote immediately followed by the prefix; a
space is inserted first (dialog.py line 216 appends `" " + output_prefix`). -/
theorem c7_counterexample :
    jsonStart "dialog".data "Hi".data ≠ "\x7b\"dialog\": \"Hi".data ∧
    jsonStart "dialog".data "Hi".data = "\x7b\"dialog\": \" Hi".data := by decide

/-- Claim C7 as amended: for every key and non-empty output prefix the
forced-JSON opening fragment is the literal open brace, quoted key, colon,
space, open-quote, then a single space, then the prefix. -/
theorem c7_forced_fragment (key opfx : List Char) (h : opfx ≠ []) :
    jsonStart key opfx = "\x7b\"".data ++ key ++ "\": \" ".data ++ opfx := by
  unfold jsonStart
  rw [if_neg h]
  simp only [List.append_assoc]
  rfl

/-- Witness for C7 at key "dialog" and prefix "Hi". -/
theorem c7_forced_fragment_witness :
    jsonStart "dialog".data "Hi".data
      = "\x7b\"".data ++ "dialog".data ++ "\": \" ".data ++ "Hi".data :=
  c7_forced_fragment "dialog".data "Hi".data (by decide)

/-- Claim C8 evaluated at the failing input "ab" (and at "a\n\nb"):
`re.sub(r"\n*", " ", description)` also matches the empty string, so a
space is inserted before every character and at the end; formerly adjacent
characters are separated and a run of newlines yields two spaces. -/
theorem c8_cleaning_inserts_spaces :
    cleanDescription "ab".data = " a b ".data ∧
    cleanDescription "a\n\nb".data = " a  b ".data := by decide

/-- Claim C9: whenever the backend call inside the dialog module's
`text_complete` raises any exception, `text_complete` raises a
`CompletionError`. -/
theorem c9_backend_failure_collapsed (e : PyExc) (opfx : List Char) :
    ∃ m, text_complete (Except.error e) opfx = TCResult.completionError m :=
  ⟨"Error completing text: ".data ++ e.msg, rfl⟩

/-- A list without `c` has no `findIdx?` hit for `(· == c)`. -/
theorem findIdx?_beq_eq_none {c : Char} {l : List Char} (h : c ∉ l) :
    l.findIdx? (· == c) = none := by
  rw [List.findIdx?_eq_none_iff]
  intro x hx
  simp only [beq_eq_false_iff_ne]
  intro he
  exact h (he ▸ hx)

/-- Extraction returns the slice from the first opening brace to the last
closing brace, for any candidate decomposed around them. -/
theorem extract_first_to_last (a mid b : List Char)
    (ha : '{' ∉ a) (hb : '}' ∉ b) :
    extract_from_curly_brackets (a ++ ('{' :: (mid ++ ('}' :: b))))
      = some ('{' :: mid ++ ['}']) := by
  have h1 : (a ++ ('{' :: (mid ++ ('}' :: b)))).findIdx? (· == '{')
      = some a.length := by
    rw [List.findIdx?_append, findIdx?_beq_eq_none ha]
    simp
  have hb' : '}' ∉ b.reverse := by simpa using hb
  have hrev : (a ++ ('{' :: (mid ++ ('}' :: b)))).reverse
      = b.reverse ++ ('}' :: (mid.reverse ++ ('{' :: a.reverse))) := by
    simp
  have h2 : (a ++ ('{' :: (mid ++ ('}' :: b)))).reverse.findIdx? (· == '}')
      = some b.length := by
    rw [hrev, List.findIdx?_append, findIdx?_beq_eq_none hb']
    simp
  have hlen : (a ++ ('{' :: (mid ++ ('}' :: b)))).length
      = a.length + mid.length + b.length + 2 := by
    simp
    omega
  simp only [extract_from_curly_brackets, h1, h2, hlen]
  rw [if_pos (by omega)]
  have hj : a.length + mid.length + b.length + 2 - 1 - b.length - a.length + 1
      = mid.length + 2 := by omega
  rw [hj, List.drop_left]
  have h2' : mid.length + 2 = (mid.length + 1) + 1 := rfl
  rw [h2', List.take_succ_cons, List.take_append 1]
  simp

/-- Extraction fails exactly in the no-pair situation: when every opening
brace comes after every closing brace (in particular when one of the two is
absent), `re.findall(r"(\x7b.*\x7d)", s, re.DOTALL)` is empty and the unpacking
raises. -/
theorem extract_none_of_no_pair (a b : List Char)
    (ha : '{' ∉ a) (hb : '}' ∉ b) :
    extract_from_curly_brackets (a ++ b) = none := by
  have hb' : '}' ∉ b.reverse := by simpa using hb
  have hrev : (a ++ b).reverse = b.reverse ++ a.reverse := by simp
  have h1 : (a ++ b).findIdx? (· == '{')
      = (b.findIdx? (· == '{')).map (· + a.length) := by
    rw [List.findIdx?_append, findIdx?_beq_eq_none ha]
    simp
  have h2 : (a ++ b).reverse.findIdx? (· == '}')
      = (a.reverse.findIdx? (· == '}')).map (· + b.length) := by
    rw [hrev, List.findIdx?_append, findIdx?_beq_eq_none hb']
    simp
  cases hk : b.findIdx? (· == '{') with
  | none =>
      simp [extract_from_curly_brackets, h1, hk]
  | some k =>
      cases ht : a.reverse.findIdx? (· == '}') with
      | none =>
          simp [extract_from_curly_brackets, h1, h2, hk, ht,
            findIdx?_beq_eq_none hb']
      | some t =>
          have hta : t < a.length := by
            simpa using (List.findIdx?_eq_some_iff_findIdx_eq.mp ht).1
          simp only [extract_from_curly_brackets, h1, h2, hk, ht,
            Option.map_some']
          rw [if_neg ?_]
          have : (a ++ b).length = a.length + b.length := by simp
          omega

/-- Counterexample to claim C1: the candidate `\x7ba\x7d\x7bb\x7d` contains two
top-level spans, yet extraction does not fail; the greedy regex returns the
whole coalesced slice. -/
theorem c1_counterexample :
    topSpanCount "\x7ba\x7d\x7bb\x7d".data = 2 ∧
    extract_from_curly_brackets "\x7ba\x7d\x7bb\x7d".data
      = some "\x7ba\x7d\x7bb\x7d".data := by decide

/-- Claim C1 as amended: extraction succeeds exactly when some opening brace
is followed by a later closing brace, returning the slice from the first
opening to the last closing brace (so a single clean span is returned as
itself, while several spans are coalesced rather than rejected); it fails
when every closing brace precedes every opening brace, in particular when
the candidate has no span at all. -/
theorem c1_extraction_first_open_to_last_close :
    (∀ a mid b : List Char, '{' ∉ a → '}' ∉ b →
      extract_from_curly_brackets (a ++ ('{' :: (mid ++ ('}' :: b))))
        = some ('{' :: mid ++ ['}'])) ∧
    (∀ a b : List Char, '{' ∉ a → '}' ∉ b →
      extract_from_curly_brackets (a ++ b) = none) :=
  ⟨extract_first_to_last, extract_none_of_no_pair⟩

/-- Witness for C1 at concrete candidates `x\x7ba\x7dy` and `x\x7d\x7by`. -/
theorem c1_extraction_witness :
    extract_from_curly_brackets ("x".data ++ ('{' :: ("a".data ++ ('}' :: "y".data))))
      = some ('{' :: "a".data ++ ['}']) ∧
    extract_from_curly_brackets ("x\x7d".data ++ "\x7by".data) = none :=
  ⟨c1_extraction_first_open_to_last_close.1 "x".data "a".data "y".data
      (by decide) (by decide),
   c1_extraction_first_open_to_last_close.2 "x\x7d".data "\x7by".data
      (by decide) (by decide)⟩

/-- Newline replacement leaves a newline-free list unchanged. -/
theorem pyReplaceNl_eq_self {k : List Char} (h : ∀ c ∈ k, c ≠ '\n') :
    pyReplaceNl k = k := by
  induction k with
  | nil => rfl
  | cons c cs ih =>
      have hc : c ≠ '\n' := h c (List.mem_cons_self c cs)
      have ih' := ih (fun x hx => h x (List.mem_cons_of_mem c hx))
      simp only [pyReplaceNl, List.flatMap_cons] at ih' ⊢
      rw [if_neg hc, ih']
      rfl

/-- Unfolding `parseJStr` at a closing quote. -/
theorem parseJStr_quote (rest : List Char) :
    parseJStr ('"' :: rest) = some ([], rest) := by
  rw [parseJStr.eq_def]
  simp

/-- Unfolding `parseJStr` at an escaped newline. -/
theorem parseJStr_esc_n (cs : List Char) :
    parseJStr ('\\' :: 'n' :: cs)
      = (parseJStr cs).map (fun p => ('\n' :: p.1, p.2)) := by
  rw [parseJStr.eq_def]
  simp [decodeEsc]

/-- Unfolding `parseJStr` at a plain content character. -/
theorem parseJStr_plain {c : Char} (h1 : c ≠ '"') (h2 : c ≠ '\\')
    (h3 : ¬ c.toNat < 32) (cs : List Char) :
    parseJStr (c :: cs) = (parseJStr cs).map (fun p => (c :: p.1, p.2)) := by
  rw [parseJStr.eq_def]
  simp [h1, h2, h3]

/-- Parsing the escaped form of a safe value consumes exactly the value and
stops at the closing quote, recovering the original value: literal newlines
were turned into backslash-n, which the parser decodes back to newlines. -/
theorem parseJStr_safe (v : List Char) (rest : List Char)
    (h : safeVal v = true) :
    parseJStr (pyReplaceNl v ++ '"' :: rest) = some (v, rest) := by
  induction v with
  | nil =>
      show parseJStr ('"' :: rest) = some ([], rest)
      exact parseJStr_quote rest
  | cons c cs ih =>
      have h1 : (plainChar c || c == '\n') = true := by
        simp [safeVal] at h
        simpa using h.1
      have h2 : safeVal cs = true := by
        simp [safeVal] at h ⊢
        exact h.2
      by_cases hnl : c = '\n'
      · subst hnl
        have hsh : pyReplaceNl ('\n' :: cs) ++ '"' :: rest
            = '\\' :: 'n' :: (pyReplaceNl cs ++ '"' :: rest) := by
          simp [pyReplaceNl]
        rw [hsh, parseJStr_esc_n, ih h2]
        rfl
      · have hp : plainChar c = true := by
          rcases Bool.or_eq_true_iff.mp h1 with hp | hnl'
          · exact hp
          · exact absurd (by simpa using hnl') hnl
        have hq : c ≠ '"' := by
          intro he
          subst he
          simp [plainChar] at hp
        have hb : c ≠ '\\' := by
          intro he
          subst he
          simp [plainChar] at hp
        have hctl : ¬ c.toNat < 32 := by
          simp [plainChar] at hp
          omega
        have hsh : pyReplaceNl (c :: cs) ++ '"' :: rest
            = c :: (pyReplaceNl cs ++ '"' :: rest) := by
          simp [pyReplaceNl, hnl]
        rw [hsh, parseJStr_plain hq hb hctl, ih h2]
        rfl

/-- A safe key has no newline. -/
theorem safeKey_no_newline {k : List Char} (hk : safeKey k = true) :
    ∀ c ∈ k, c ≠ '\n' := by
  intro c hc he
  subst he
  have := List.all_eq_true.mp hk _ hc
  simp [plainChar] at this

/-- A safe key is in particular a safe value. -/
theorem safeKey_safeVal {k : List Char} (hk : safeKey k = true) :
    safeVal k = true := by
  rw [safeVal, List.all_eq_true]
  intro c hc
  simp [List.all_eq_true.mp hk _ hc]

/-- Extraction of a well-formed envelope returns the envelope itself: it
starts with the first opening brace and ends with the last closing brace. -/
theorem extract_envelope (k v : List Char) :
    extract_from_curly_brackets (envelope k v) = some (envelope k v) := by
  have base := extract_first_to_last []
      ('"' :: (k ++ ('"' :: ':' :: ' ' :: '"' :: (v ++ ['"'])))) []
      (by simp) (by simp)
  have e1 : ([] : List Char)
        ++ ('{' :: (('"' :: (k ++ ('"' :: ':' :: ' ' :: '"' :: (v ++ ['"']))))
            ++ ('}' :: ([] : List Char))))
      = envelope k v := by
    simp [envelope]
  have e2 : '{' :: ('"' :: (k ++ ('"' :: ':' :: ' ' :: '"' :: (v ++ ['"'])))) ++ ['}']
      = envelope k v := by
    simp [envelope]
  rw [e1, e2] at base
  exact base

/-- Newline replacement on the envelope only rewrites the value part. -/
theorem pyReplaceNl_envelope (k v : List Char) (hk : safeKey k = true) :
    pyReplaceNl (envelope k v)
      = '{' :: '"' :: (k ++ ('"' :: ':' :: ' ' :: '"'
          :: (pyReplaceNl v ++ ['"', '}']))) := by
  have hkid : pyReplaceNl k = k := pyReplaceNl_eq_self (safeKey_no_newline hk)
  simp only [envelope, pyReplaceNl, List.flatMap_cons, List.flatMap_append] at hkid ⊢
  rw [hkid]
  simp

/-- Parsing the normalized envelope recovers the key and the original value. -/
theorem parseEnvObj_envelope (k v : List Char)
    (hk : safeKey k = true) (hv : safeVal v = true) :
    parseEnvObj (pyReplaceNl (envelope k v)) = some (k, v) := by
  have hkid : pyReplaceNl k = k := pyReplaceNl_eq_self (safeKey_no_newline hk)
  have hkparse : parseJStr
      (k ++ '"' :: (':' :: ' ' :: '"' :: (pyReplaceNl v ++ ['"', '}'])))
      = some (k, ':' :: ' ' :: '"' :: (pyReplaceNl v ++ ['"', '}'])) := by
    have h := parseJStr_safe k
      (':' :: ' ' :: '"' :: (pyReplaceNl v ++ ['"', '}'])) (safeKey_safeVal hk)
    rw [hkid] at h
    exact h
  have hvparse : parseJStr (pyReplaceNl v ++ ['"', '}'])
      = some (v, ['}']) := parseJStr_safe v ['}'] hv
  rw [pyReplaceNl_envelope k v hk]
  simp [parseEnvObj, skipWs, List.dropWhile_cons, hkparse, hvparse]

/-- Claim C2: for every well-formed envelope whose value contains a literal
newline (and is otherwise made of plain string characters), the
normalize-then-parse step of `json_complete` succeeds and returns the value
with the newline preserved as content. -/
theorem c2_newline_normalization (k v : List Char)
    (hk : safeKey k = true) (hv : safeVal v = true) (hnl : '\n' ∈ v) :
    json_complete_parse (envelope k v) k = some v := by
  simp [json_complete_parse, extract_envelope, parseEnvObj_envelope k v hk hv]

/-- Witness for C2 at key "dialog" and value "a\nb". -/
theorem c2_newline_normalization_witness :
    safeKey "dialog".data = true ∧ safeVal "a\nb".data = true ∧
    '\n' ∈ "a\nb".data ∧
    json_complete_parse (envelope "dialog".data "a\nb".data) "dialog".data
      = some "a\nb".data :=
  ⟨by decide, by decide, by decide,
    c2_newline_normalization "dialog".data "a\nb".data
      (by decide) (by decide) (by decide)⟩

/-- A case-insensitive copy of the apostrophe tagline matches `tagAt` with
length 20, regardless of what follows. -/
theorem tagAt_append_tag1 (t b : List Char) (h : lowerL t = tag1) :
    tagAt (t ++ b) = some 20 := by
  have hlen : t.length = 20 := by
    have := congrArg List.length h
    simpa [lowerL] using this
  simp [tagAt, List.take_left' hlen, h]

/-- A case-insensitive copy of the no-apostrophe tagline matches `tagAt`
with length 19: the apostrophe alternative cannot fire because the two
alternatives disagree at index 4. -/
theorem tagAt_append_tag0 (t b : List Char) (h : lowerL t = tag0) :
    tagAt (t ++ b) = some 19 := by
  have hlen : t.length = 19 := by
    have := congrArg List.length h
    simpa [lowerL] using this
  have h' : t.map Char.toLower = tag0 := h
  have hne : lowerL ((t ++ b).take 20) ≠ tag1 := by
    have h20 : (t ++ b).take 20 = t ++ b.take 1 := by
      have : (20 : Nat) = t.length + 1 := by omega
      rw [this, List.take_append]
    rw [h20]
    simp only [lowerL, List.map_append] at h' ⊢
    rw [h']
    intro hc
    have h4 : (tag0 ++ List.map Char.toLower (List.take 1 b))[4]? = tag1[4]? :=
      congrArg (fun l => l[4]?) hc
    rw [List.getElem?_append_left (show (4 : Nat) < tag0.length by decide)] at h4
    exact absurd h4 (by decide)
  simp [tagAt, hne, List.take_left' hlen, h]

/-- `tagAt` rejects a position where neither tagline alternative occurs. -/
theorem tagAt_none_of (u : List Char)
    (h1 : startsWithCI tag1 u = false) (h0 : startsWithCI tag0 u = false) :
    tagAt u = none := by
  have e1 : tag1.length = 20 := by decide
  have e0 : tag0.length = 19 := by decide
  rw [startsWithCI, e1, beq_eq_false_iff_ne] at h1
  rw [startsWithCI, e0, beq_eq_false_iff_ne] at h0
  simp [tagAt, h1, h0]

/-- `salvageGo` skips a position with no tagline occurrence, keeping the
skipped character. -/
theorem salvageGo_cons_no_tag {c : Char} {cs : List Char}
    (h : tagAt (c :: cs) = none) :
    salvageGo (c :: cs) = (salvageGo cs).map (c :: ·) := by
  rw [salvageGo.eq_def]
  simp [h]

/-- `salvageGo` succeeds at a position where the tagline matches and the
remainder is feasible for `.*$`. -/
theorem salvageGo_match (t b : List Char) (ht : t ≠ [])
    (htag : tagAt (t ++ b) = some t.length) (hok : tailOkB b = true) :
    salvageGo (t ++ b) = some (canonicalClose ++ trailNl b) := by
  obtain ⟨c, t', rfl⟩ : ∃ c t', t = c :: t' := by
    cases t with
    | nil => exact absurd rfl ht
    | cons c t' => exact ⟨c, t', rfl⟩
  have htag' : tagAt (c :: (t' ++ b)) = some (t'.length + 1) := by
    simpa using htag
  have hdrop : (c :: (t' ++ b)).drop (t'.length + 1) = b := by
    simp [List.drop_left]
  show salvageGo (c :: (t' ++ b)) = some (canonicalClose ++ trailNl b)
  rw [salvageGo.eq_def]
  simp [htag', hdrop, hok]

/-- The salvage scan rewrites from the leftmost feasible tagline position:
everything before it is copied, everything from the match on is replaced by
the canonical closing text, and a final trailing newline survives. -/
theorem salvage_success (a t b : List Char)
    (ht : t ≠ []) (htag : tagAt (t ++ b) = some t.length)
    (hok : tailOkB b = true)
    (hearly : ∀ j, j < a.length → tagAt ((a ++ (t ++ b)).drop j) = none) :
    salvageGo (a ++ (t ++ b)) = some (a ++ (canonicalClose ++ trailNl b)) := by
  induction a with
  | nil =>
      simpa using salvageGo_match t b ht htag hok
  | cons c a' ih =>
      have h0 : tagAt (c :: (a' ++ (t ++ b))) = none := by
        have := hearly 0 (by simp)
        simpa using this
      have hearly' : ∀ j, j < a'.length → tagAt ((a' ++ (t ++ b)).drop j) = none := by
        intro j hj
        have := hearly (j + 1) (by simp; omega)
        simpa using this
      have step : salvageGo (c :: (a' ++ (t ++ b)))
          = (salvageGo (a' ++ (t ++ b))).map (c :: ·) :=
        salvageGo_cons_no_tag h0
      show salvageGo (c :: (a' ++ (t ++ b))) = _
      rw [step, ih hearly']
      simp

/-- Without any case-insensitive tagline occurrence the salvage scan finds
nothing and the function raises. -/
theorem salvage_none (s : List Char) (h : containsTagPat s = false) :
    salvageGo s = none := by
  induction s with
  | nil => rfl
  | cons c cs ih =>
      have h' : startsWithCI tag1 (c :: cs) = false ∧
          startsWithCI tag0 (c :: cs) = false ∧ containsTagPat cs = false := by
        simp [containsTagPat, occursCI] at h ⊢
        tauto
      rw [salvageGo_cons_no_tag (tagAt_none_of _ h'.1 h'.2.1), ih h'.2.2]
      rfl

/-- Counterexample to claim C3: this candidate contains a case-insensitive
match of "that's all for today", yet salvage raises, because the pattern
`that'?s all for today.*$` (no DOTALL, no MULTILINE) cannot cross the
newline that follows the tagline. -/
theorem c3_counterexample :
    containsTagPat "that\x27s all for today\nGoodbye".data = true ∧
    attempt_to_salvage_dialog_that_is_slightly_too_long
      "that\x27s all for today\nGoodbye".data = none := by decide

/-- Claim C3 as amended: if the candidate contains a case-insensitive
tagline occurrence followed only by non-newline characters up to the end of
the string (a single final newline is allowed and survives), and no
occurrence starts earlier, salvage replaces everything from that occurrence
on by the canonical closing sentence plus closing quote and brace; if the
candidate contains no case-insensitive tagline occurrence at all, salvage
raises. -/
theorem c3_salvage_rewrite :
    (∀ a t b : List Char, lowerL t = tag1 → tailOkB b = true →
      (∀ j, j < a.length → tagAt ((a ++ (t ++ b)).drop j) = none) →
      attempt_to_salvage_dialog_that_is_slightly_too_long (a ++ (t ++ b))
        = some (a ++ (canonicalClose ++ trailNl b))) ∧
    (∀ s : List Char, containsTagPat s = false →
      attempt_to_salvage_dialog_that_is_slightly_too_long s = none) := by
  constructor
  · intro a t b h1 hok hearly
    have hlen : t.length = 20 := by
      have := congrArg List.length h1
      simpa [lowerL] using this
    have htag : tagAt (t ++ b) = some t.length := by
      rw [tagAt_append_tag1 t b h1, hlen]
    have ht : t ≠ [] := by
      intro he
      rw [he] at hlen
      simp at hlen
    exact salvage_success a t b ht htag hok hearly
  · intro s h
    exact salvage_none s h

/-- Witness for C3: success on `Host: THAT\x27S ALL FOR TODAY folks` and
failure on a tagline-free candidate. -/
theorem c3_salvage_rewrite_witness :
    attempt_to_salvage_dialog_that_is_slightly_too_long
        ("Host: ".data ++ ("THAT\x27S ALL FOR TODAY".data ++ " folks".data))
      = some ("Host: ".data ++ (canonicalClose ++ trailNl " folks".data)) ∧
    attempt_to_salvage_dialog_that_is_slightly_too_long "no closing line".data
      = none :=
  ⟨c3_salvage_rewrite.1 "Host: ".data "THAT\x27S ALL FOR TODAY".data
      " folks".data (by decide) (by decide) (by decide),
   c3_salvage_rewrite.2 "no closing line".data (by decide)⟩

/-- Counterexample to claim C10: this candidate contains the
case-insensitive substring "thats all for today" (no apostrophe), yet
salvage raises, because a newline follows the tagline and the regex
`.*$` cannot cross it. -/
theorem c10_counterexample :
    occursCI tag0 "thats all for today\nmore".data = true ∧
    attempt_to_salvage_dialog_that_is_slightly_too_long
      "thats all for today\nmore".data = none := by decide

/-- Claim C10 as amended: the apostrophe in the tagline pattern is indeed
optional; a case-insensitive occurrence of "thats all for today" that is
followed only by non-newline characters up to the end of the string (a
single final newline is allowed and survives), with no earlier occurrence,
makes salvage succeed and rewrite the tail from that occurrence to the
canonical closing sentence plus closing quote and brace. -/
theorem c10_salvage_no_apostrophe (a t b : List Char)
    (h0 : lowerL t = tag0) (hok : tailOkB b = true)
    (hearly : ∀ j, j < a.length → tagAt ((a ++ (t ++ b)).drop j) = none) :
    attempt_to_salvage_dialog_that_is_slightly_too_long (a ++ (t ++ b))
      = some (a ++ (canonicalClose ++ trailNl b)) := by
  have hlen : t.length = 19 := by
    have := congrArg List.length h0
    simpa [lowerL] using this
  have htag : tagAt (t ++ b) = some t.length := by
    rw [tagAt_append_tag0 t b h0, hlen]
  have ht : t ≠ [] := by
    intro he
    rw [he] at hlen
    simp at hlen
  exact salvage_success a t b ht htag hok hearly

/-- Witness for C10 on `intro: Thats All For Today!!`. -/
theorem c10_salvage_no_apostrophe_witness :
    attempt_to_salvage_dialog_that_is_slightly_too_long
        ("intro: ".data ++ ("Thats All For Today".data ++ "!!".data))
      = some ("intro: ".data ++ (canonicalClose ++ trailNl "!!".data)) :=
  c10_salvage_no_apostrophe "intro: ".data "Thats All For Today".data
    "!!".data (by decide) (by decide) (by decide)

/-- Ceiling-division step identity driving the chunk recursion: the number
of strides over `n ≥ 1` elements is one more than the number of strides
over the remaining `n - p` elements. -/
theorem stride_count_step (p : Nat) (hp : 0 < p) (n : Nat) (hn : 0 < n) :
    (n + p - 1) / p = (n - p + p - 1) / p + 1 := by
  have e1 : n + p - 1 = (n - 1) + p := by omega
  rw [e1, Nat.add_div_right _ hp]
  rcases Nat.lt_or_ge n (p + 1) with hlt | hge
  · have e2 : n - p = 0 := by omega
    have d1 : (n - 1) / p = 0 := Nat.div_eq_of_lt (by omega)
    have d2 : (0 + p - 1) / p = 0 := Nat.div_eq_of_lt (by omega)
    rw [e2, d1, d2]
  · have e3 : n - p + p - 1 = (n - p - 1) + p := by omega
    have e4 : n - 1 = (n - p - 1) + p := by omega
    rw [e3, e4, Nat.add_div_right _ hp]

/-- The `range`/slice comprehension of `summarize_pipeline` computes the
map of `f` over the reference chunking. -/
theorem range_slice_eq_chunksOf (p : Nat) (hp : 0 < p) (f : List α → β) :
    ∀ xs : List α,
      (List.range' 0 ((xs.length + p - 1) / p) p).map
          (fun i => f ((xs.drop i).take p))
        = (chunksOf p xs).map f
  | [] => by
      have d : (p - 1) / p = 0 := Nat.div_eq_of_lt (by omega)
      simp [chunksOf, d]
  | x :: xs => by
      have harith : ((x :: xs).length + p - 1) / p
          = ((xs.drop (p - 1)).length + p - 1) / p + 1 := by
        have h1 : (xs.drop (p - 1)).length = xs.length + 1 - p := by
          simp
          omega
        rw [h1, List.length_cons]
        exact stride_count_step p hp (xs.length + 1) (by omega)
      have hdropp : ∀ i, (x :: xs).drop (p + i) = (xs.drop (p - 1)).drop i := by
        intro i
        rw [List.drop_drop]
        have e : p + i = (p - 1 + i) + 1 := by omega
        rw [e, List.drop_succ_cons]
      rw [harith, List.range'_succ]
      rw [chunksOf.eq_def]
      simp only [List.map_cons, List.drop_zero]
      congr 1
      have hmap : List.range' (0 + p) (((xs.drop (p - 1)).length + p - 1) / p) p
          = (List.range' 0 (((xs.drop (p - 1)).length + p - 1) / p) p).map (p + ·) := by
        rw [List.map_add_range', Nat.add_zero, Nat.zero_add]
      rw [hmap, List.map_map]
      have hfun : ((fun i => f (((x :: xs).drop i).take p)) ∘ (p + ·))
          = fun i => f ((((xs.drop (p - 1)).drop i)).take p) := by
        funext i
        simp [Function.comp, hdropp i]
      rw [hfun]
      exact range_slice_eq_chunksOf p hp f (xs.drop (p - 1))
  termination_by xs => xs.length
  decreasing_by simp [List.length_drop]; omega

/-- Every chunk has at most `p` elements. -/
theorem chunksOf_length_le (p : Nat) :
    ∀ xs : List α, ∀ c ∈ chunksOf p xs, c.length ≤ p
  | [] => by simp [chunksOf]
  | x :: xs => by
      intro c hc
      rw [chunksOf.eq_def] at hc
      rcases List.mem_cons.mp hc with h | h
      · subst h
        simpa using List.length_take_le p (x :: xs)
      · exact chunksOf_length_le p (xs.drop (p - 1)) c h
  termination_by xs => xs.length
  decreasing_by simp [List.length_drop]; omega

/-- No chunk is empty when the stride is positive. -/
theorem chunksOf_ne_nil (p : Nat) (hp : 0 < p) :
    ∀ xs : List α, ∀ c ∈ chunksOf p xs, c ≠ []
  | [] => by simp [chunksOf]
  | x :: xs => by
      intro c hc
      rw [chunksOf.eq_def] at hc
      rcases List.mem_cons.mp hc with h | h
      · subst h
        obtain ⟨q, rfl⟩ : ∃ q, p = q + 1 := ⟨p - 1, by omega⟩
        simp [List.take_succ_cons]
      · exact chunksOf_ne_nil p hp (xs.drop (p - 1)) c h
  termination_by xs => xs.length
  decreasing_by simp [List.length_drop]; omega

/-- Concatenating the chunks in order restores the original list: no
element is split, reordered, or dropped. -/
theorem chunksOf_flatten (p : Nat) (hp : 0 < p) :
    ∀ xs : List α, (chunksOf p xs).flatten = xs
  | [] => by simp [chunksOf]
  | x :: xs => by
      rw [chunksOf.eq_def]
      simp only [List.flatten_cons]
      rw [chunksOf_flatten p hp (xs.drop (p - 1))]
      have e : xs.drop (p - 1) = (x :: xs).drop p := by
        obtain ⟨q, rfl⟩ : ∃ q, p = q + 1 := ⟨p - 1, by omega⟩
        simp
      rw [e, List.take_append_drop]
  termination_by xs => xs.length
  decreasing_by simp [List.length_drop]; omega

/-- Every chunk except possibly the last has exactly `p` elements. -/
theorem chunksOf_dropLast_length (p : Nat) (hp : 0 < p) :
    ∀ xs : List α, ∀ c ∈ (chunksOf p xs).dropLast, c.length = p
  | [] => by simp [chunksOf]
  | x :: xs => by
      intro c hc
      have hstep : chunksOf p (x :: xs)
          = (x :: xs).take p :: chunksOf p (xs.drop (p - 1)) := by
        rw [chunksOf.eq_def]
      rw [hstep] at hc
      cases htail : chunksOf p (xs.drop (p - 1)) with
      | nil =>
          rw [htail] at hc
          simp at hc
      | cons d ds =>
          rw [htail] at hc
          rw [List.dropLast_cons_of_ne_nil (by simp)] at hc
          rcases List.mem_cons.mp hc with h | h
          · subst h
            have hne : xs.drop (p - 1) ≠ [] := by
              intro he
              rw [he, chunksOf.eq_def] at htail
              simp at htail
            have hlt : p - 1 < xs.length := List.length_lt_of_drop_ne_nil hne
            simp [List.length_take]
            omega
          · exact chunksOf_dropLast_length p hp (xs.drop (p - 1)) c
              (htail ▸ h)
  termination_by xs => xs.length
  decreasing_by simp [List.length_drop]; omega

/-- `" ".join` distributes over concatenation of non-empty lists. -/
theorem pyJoin_append (sep : List Char) :
    ∀ l1 l2 : List (List Char), l1 ≠ [] → l2 ≠ [] →
      pyJoin sep (l1 ++ l2) = pyJoin sep l1 ++ sep ++ pyJoin sep l2
  | [], _, h1, _ => absurd rfl h1
  | [x], y :: l2, _, _ => by simp [pyJoin]
  | x :: x' :: l1, y :: l2, _, h2 => by
      have ih := pyJoin_append sep (x' :: l1) (y :: l2) (by simp) h2
      show pyJoin sep (x :: (x' :: (l1 ++ (y :: l2)))) = _
      rw [show pyJoin sep (x :: (x' :: (l1 ++ (y :: l2))))
          = x ++ sep ++ pyJoin sep (x' :: (l1 ++ (y :: l2))) from rfl]
      rw [show (x' :: (l1 ++ (y :: l2)) : List (List Char))
          = (x' :: l1) ++ (y :: l2) from rfl]
      rw [ih]
      rw [show pyJoin sep (x :: x' :: l1)
          = x ++ sep ++ pyJoin sep (x' :: l1) from rfl]
      simp [List.append_assoc]
  | [_], [], _, h2 => absurd rfl h2
  | _ :: _ :: _, [], _, h2 => absurd rfl h2

/-- Joining the per-chunk joins equals joining the flattened chunks, when
no chunk is empty. -/
theorem pyJoin_map_flatten (sep : List Char) :
    ∀ chunks : List (List (List Char)), (∀ c ∈ chunks, c ≠ []) →
      pyJoin sep (chunks.map (pyJoin sep)) = pyJoin sep chunks.flatten
  | [], _ => rfl
  | [c], _ => by simp [pyJoin]
  | c :: c' :: rest, h => by
      have hc : c ≠ [] := h c (by simp)
      have hc' : c' ≠ [] := h c' (by simp)
      have hflat : (c' :: rest).flatten ≠ [] := by
        simp only [List.flatten_cons]
        intro he
        exact hc' (List.append_eq_nil.mp he).1
      have ih := pyJoin_map_flatten sep (c' :: rest)
        (fun d hd => h d (List.mem_cons_of_mem c hd))
      show pyJoin sep (pyJoin sep c :: pyJoin sep c' :: rest.map (pyJoin sep))
          = pyJoin sep ((c :: c' :: rest).flatten)
      rw [show pyJoin sep (pyJoin sep c :: pyJoin sep c' :: rest.map (pyJoin sep))
          = pyJoin sep c ++ sep ++ pyJoin sep (pyJoin sep c' :: rest.map (pyJoin sep))
          from rfl]
      rw [show (pyJoin sep c' :: rest.map (pyJoin sep) : List (List Char))
          = (c' :: rest).map (pyJoin sep) from rfl]
      rw [ih]
      rw [show ((c :: c' :: rest).flatten : List (List Char))
          = c ++ (c' :: rest).flatten from rfl]
      rw [pyJoin_append sep c ((c' :: rest).flatten) hc hflat]

/-- Claim C4: for a positive page size the segmentation walks the sentence
list in strides of `P`, joining each stride with single spaces; every chunk
has at most `P` sentences, only the last chunk may be shorter, no sentence
is split, reordered or dropped (the chunks flatten back to the input), and
joining the chunk strings with single spaces reproduces the space-joined
input. -/
theorem c4_segmentation (sents : List (List Char)) (P : Int) (hP : 0 < P) :
    ∃ chunks : List (List (List Char)),
      segmentE sents P = Except.ok (chunks.map (pyJoin spC)) ∧
      chunks.flatten = sents ∧
      (∀ c ∈ chunks, c.length ≤ P.toNat) ∧
      (∀ c ∈ chunks.dropLast, c.length = P.toNat) ∧
      pyJoin spC (chunks.map (pyJoin spC)) = pyJoin spC sents := by
  have hp : 0 < P.toNat := by omega
  refine ⟨chunksOf P.toNat sents, ?_, chunksOf_flatten _ hp sents,
    chunksOf_length_le _ sents, chunksOf_dropLast_length _ hp sents, ?_⟩
  · have hne : ¬ P = 0 := by omega
    have hneg : ¬ P < 0 := by omega
    rw [segmentE, pyRange0, if_neg hne, if_neg hneg]
    show Except.ok
        ((List.range' 0 ((sents.length + P.toNat - 1) / P.toNat) P.toNat).map
          (fun i => pyJoin spC ((sents.drop i).take P.toNat)))
      = Except.ok ((chunksOf P.toNat sents).map (pyJoin spC))
    rw [range_slice_eq_chunksOf P.toNat hp (pyJoin spC) sents]
  · rw [pyJoin_map_flatten spC (chunksOf P.toNat sents)
      (chunksOf_ne_nil _ hp sents), chunksOf_flatten _ hp sents]

/-- Witness for C4 at three sentences and page size 2. -/
theorem c4_segmentation_witness :
    (0 : Int) < 2 ∧ ∃ chunks : List (List (List Char)),
      segmentE ["The cat sat".data, "It purred".data, "The end".data] 2
        = Except.ok (chunks.map (pyJoin spC)) ∧
      chunks.flatten = ["The cat sat".data, "It purred".data, "The end".data] ∧
      (∀ c ∈ chunks, c.length ≤ (2 : Int).toNat) ∧
      (∀ c ∈ chunks.dropLast, c.length = (2 : Int).toNat) ∧
      pyJoin spC (chunks.map (pyJoin spC))
        = pyJoin spC ["The cat sat".data, "It purred".data, "The end".data] :=
  ⟨by decide,
    c4_segmentation ["The cat sat".data, "It purred".data, "The end".data] 2
      (by decide)⟩

/-- Counterexample to claim C5: with a negative page size the pipeline does
not fail; the `range` is empty, so segmentation succeeds with no chunks at
all, silently dropping every sentence before the completion stages run. -/
theorem c5_counterexample :
    segmentE ["hello".data, "world".data] (-1) = Except.ok [] := rfl

/-- Claim C5 as amended: a page size of zero does fail immediately (the
`ValueError` from `range`), but a negative page size is not rejected:
segmentation returns an empty chunk list, dropping all sentences, and the
pipeline continues. -/
theorem c5_page_size (sents : List (List Char)) (P : Int) :
    (segmentE sents 0 = Except.error "range() arg 3 must not be zero".data) ∧
    (P < 0 → segmentE sents P = Except.ok []) := by
  constructor
  · rfl
  · intro hP
    rw [segmentE, pyRange0, if_neg (by omega), if_pos hP]
    rfl

/-- Witness for C5 at one sentence and page size -2. -/
theorem c5_page_size_witness :
    segmentE ["a".data] 0 = Except.error "range() arg 3 must not be zero".data ∧
    segmentE ["a".data] (-2) = Except.ok [] :=
  ⟨(c5_page_size ["a".data] (-2)).1, (c5_page_size ["a".data] (-2)).2 (by decide)⟩

end P2P
